import Mathlib

/-!
Verification of the nightly build report script
(`.jenkins/scripts/global/nightly-report.py`).

The script scans a parent build's console log for downstream build
identifiers, deduplicates them against a SQLite table, fetches per-build
metadata, stores one record per build, assembles a per-date report with a
six-day history window, and emails the rendered report.

The shallow embedding below translates the script's logic into Lean:

* the regex `Starting building.* (\S+) #(\d+)` and `re.finditer` become
  an explicit backtracking matcher over `List Char` (ASCII reading of the
  character classes, which covers all log text the script handles);
* the SQLite table becomes a `List BuildRecord` in insertion order; the
  script's interpolated SQL queries become Lean functions with the same
  filter/order semantics (`ORDER BY` with SQLite's byte-wise collation is
  the lexicographic order on strings);
* Python locals that may be unbound (`standalone_build_os` / `_vm`) are
  threaded as `Option String`; paths where the script raises are an
  explicit failure flag.
-/

namespace NightlyReport

/-! ### Log Scanner: `re.finditer(r'Starting building.* (\S+) #(\d+)', log)` -/

/-- ASCII reading of the regex character class `\d`. -/
def isAsciiDigit (c : Char) : Bool := '0' ≤ c && c ≤ '9'

/-- ASCII reading of Python's whitespace class `\s`; the regex class `\S`
is its negation. -/
def isPySpace (c : Char) : Bool :=
  c == ' ' || c == '\t' || c == '\n' || c == '\r' || c == '\x0b' || c == '\x0c'

/-- Matches the regex tail ` (\S+) #(\d+)` anchored at the head of `cs`,
returning both capture groups and the remainder after the match.  A greedy
`\S+` followed by the literal ` #` can only succeed on the maximal
non-space run (stopping the run any earlier leaves a non-space character
next, which cannot match the literal space), so no backtracking is needed
inside this fragment; likewise the final greedy `\d+` is maximal. -/
def matchGroups (cs : List Char) : Option (String × String × List Char) :=
  match cs with
  | [] => none
  | c :: cs1 =>
    if c = ' ' then
      let fam := cs1.takeWhile (fun x => !isPySpace x)
      if fam.isEmpty then none
      else
        match cs1.drop fam.length with
        | c2 :: c3 :: cs2 =>
          if c2 = ' ' && c3 = '#' then
            let num := cs2.takeWhile isAsciiDigit
            if num.isEmpty then none
            else some (String.mk fam, String.mk num, cs2.drop num.length)
          else none
        | _ => none
    else none

/-- Backtracking search for the greedy `.*` (which cannot cross a newline):
`line` is the remainder of the current line, `rest` everything after it.
The longest extent of `.*` is tried first, i.e. the deepest recursion. -/
def dotStarSearch : List Char → List Char → Option (String × String × List Char)
  | [], rest => matchGroups rest
  | c :: line, rest =>
    match dotStarSearch line rest with
    | some r => some r
    | none => matchGroups (c :: (line ++ rest))

/-- Consumes the literal marker from the head of the text, or fails. -/
def stripMarker : List Char → List Char → Option (List Char)
  | [], cs => some cs
  | _ :: _, [] => none
  | m :: ms, c :: cs => if m = c then stripMarker ms cs else none

/-- Characters of the literal part of the scan pattern. -/
def startMarker : List Char := "Starting building".data

/-- Attempts the whole pattern `Starting building.* (\S+) #(\d+)` anchored
at the head of `cs`. -/
def tryMatchAt (cs : List Char) : Option (String × String × List Char) :=
  match stripMarker startMarker cs with
  | none => none
  | some cs1 =>
    let line := cs1.takeWhile (fun c => c != '\n')
    dotStarSearch line (cs1.drop line.length)

/-- Scanning loop of `re.finditer`: find the leftmost match, emit it,
resume at the match end.  Every step consumes at least one character, so
fuel equal to the text length is always sufficient. -/
def scanAux : Nat → List Char → List (String × String)
  | 0, _ => []
  | fuel + 1, cs =>
    match tryMatchAt cs with
    | some (f, n, rest) => (f, n) :: scanAux fuel rest
    | none =>
      match cs with
      | [] => []
      | _ :: cs1 => scanAux fuel cs1

/-- All matches of `Starting building.* (\S+) #(\d+)` in document order,
as produced by `re.finditer` at line 198 of the script. -/
def scanLog (log : String) : List (String × String) :=
  scanAux (log.data.length + 1) log.data

/-! ### Build Metadata Fetcher payload (`get_build_info` JSON, lines 220-239) -/

/-- One entry of a `ParametersAction`'s `parameters` collection.  `pname`
models `x.get('name')` (absent key gives `none`), `value` models
`x.get('value', 'N/A')` where `none` stands for an absent `value` key. -/
structure ParamEntry where
  pname : Option String
  value : Option String
deriving DecidableEq

/-- One entry of the build info's `actions` list.  `jclass` models
`x.get('_class')`; `parameters` models `x.get('parameters')`, where `none`
stands for an absent key (iterating it raises in Python). -/
structure JAction where
  jclass : Option String
  parameters : Option (List ParamEntry)
deriving DecidableEq

/-- Relevant part of the JSON returned by `get_build_info`: the `actions`
list and `result` (`None` for a build without a result). -/
structure FetchedBuild where
  actions : List JAction
  result : Option String
deriving DecidableEq

/-- Lines 228-239: locate a parameter by name in the parameters collection
and take its value, falling back to the sentinel on an absent entry or an
absent `value` key. -/
def paramValue (ps : List ParamEntry) (key : String) : String :=
  match ps.filter (fun x => x.pname == some key) with
  | [] => "N/A"
  | e :: _ => e.value.getD "N/A"

/-- Lines 223-239: the update performed on the Python locals
`standalone_build_os` / `standalone_build_vm` by one loop iteration.
`osV`/`vmV` are the current values of those locals (`none` = not yet
bound).  When the action list has no `ParametersAction`, the `if` body is
skipped and both locals keep their previous values; when the first
`ParametersAction` lacks a `parameters` key, iterating `None` raises
(`none` result). -/
def updateParamVars (info : FetchedBuild) (osV vmV : Option String) :
    Option (Option String × Option String) :=
  match info.actions.filter (fun a => a.jclass == some "hudson.model.ParametersAction") with
  | [] => some (osV, vmV)
  | a :: _ =>
    match a.parameters with
    | none => none
    | some ps =>
      some (some (paramValue ps "UBUNTU_VERSION"), some (paramValue ps "VM_GENERATION"))

/-! ### Result Store and the collect loop (lines 176-261) -/

/-- One row of the `nightly` table.  All columns are stored as text: the
`INSERT` at line 258 double-quotes every value. -/
structure BuildRecord where
  name : String
  number : String
  os : String
  vm : String
  result : String
  url : String
  date : String
deriving DecidableEq

/-- Lines 211-217: the dedup query
`SELECT ... FROM nightly WHERE name = "{build}" AND number = {number}`
followed by `fetchone()` truthiness — does a row with this name and
number exist? -/
def storeExists (db : List BuildRecord) (name number : String) : Bool :=
  db.any (fun r => r.name == name && r.number == number)

/-- Line 142: `get_build_url_blueocean`. -/
def get_build_url_blueocean (baseUrl folder jobName jobNumber : String) : String :=
  baseUrl ++ "/blue/organizations/jenkins/" ++ folder ++ jobName ++ "/detail/" ++
    jobName ++ "/" ++ jobNumber ++ "/pipeline"

/-- Line 199: the hard-coded exclusion list. -/
def standalone_ignore_list : List String := ["Send-Email"]

/-- Outcome of a `collect_downstream_builds` call: the rows visible on the
cursor when the function returns or raises, and whether it returned
normally (`ok = false` models an uncaught exception). -/
structure CollectResult where
  db : List BuildRecord
  ok : Bool
deriving DecidableEq

/-- Lines 203-261: the loop over the scanned `(family, number)` pairs.
For each pair: skip if the family is in the ignore list; skip if the
dedup query finds a row; otherwise fetch the build info, update the two
parameter locals, build the row and insert it.  `osV`/`vmV` thread the
Python locals `standalone_build_os` / `standalone_build_vm` across
iterations; the failure branch covers the `UnboundLocalError` raised by
`f"Ubuntu {standalone_build_os}"` when the local was never bound, the
`TypeError` raised by `'", "'.join` when `result` is `None`, and the
`TypeError` from iterating an absent `parameters` collection. -/
def collectLoop (baseUrl : String) (fetch : String → String → FetchedBuild)
    (ignore : List String) (date : String) :
    List (String × String) → List BuildRecord → Option String → Option String →
    CollectResult
  | [], db, _, _ => ⟨db, true⟩
  | (name, num) :: rest, db, osV, vmV =>
    if ignore.contains name then
      collectLoop baseUrl fetch ignore date rest db osV vmV
    else if storeExists db name num then
      collectLoop baseUrl fetch ignore date rest db osV vmV
    else
      let info := fetch name num
      match updateParamVars info osV vmV with
      | none => ⟨db, false⟩
      | some (osV1, vmV1) =>
        match osV1, vmV1, info.result with
        | some osStr, some vmStr, some res =>
          let rec1 : BuildRecord :=
            { name := name
              number := num
              os := "Ubuntu " ++ osStr
              vm := "ACC-" ++ vmStr
              result := res
              url := get_build_url_blueocean baseUrl "Mystikos%2FStandalone-Pipelines%2F" name num
              date := date }
          collectLoop baseUrl fetch ignore date rest (db ++ [rec1]) osV1 vmV1
        | _, _, _ => ⟨db, false⟩

/-- Line 200: `if not re_job_match` applied to the object returned by
`re.finditer`.  A `callable_iterator` defines neither a boolean conversion
nor a length, so Python treats it as truthy even when there are zero
matches; the `raise` at line 201 is therefore unreachable. -/
def finditerTruthy : Bool := true

/-- Lines 176-261: `collect_downstream_builds`, with the Jenkins session
abstracted to the concatenated parent log text `log` and the per-build
metadata function `fetch`. -/
def collect_downstream_builds (baseUrl : String) (fetch : String → String → FetchedBuild)
    (date : String) (log : String) (db : List BuildRecord) : CollectResult :=
  let pairs := scanLog log
  if finditerTruthy then
    collectLoop baseUrl fetch standalone_ignore_list date pairs db none none
  else
    ⟨db, false⟩

/-! ### Concrete fetch functions used as inputs in closed theorems -/

/-- Payload of a build that carries both tracked parameters. -/
def payloadFull (osVal vmVal : String) : FetchedBuild :=
  { actions := [{ jclass := some "hudson.model.ParametersAction"
                  parameters := some [⟨some "UBUNTU_VERSION", some osVal⟩,
                                      ⟨some "VM_GENERATION", some vmVal⟩] }]
    result := some "SUCCESS" }

/-- Payload of a build whose action list has no `ParametersAction`. -/
def payloadNoParams : FetchedBuild :=
  { actions := [{ jclass := some "hudson.model.CauseAction", parameters := none }]
    result := some "SUCCESS" }

/-- Metadata source for the C1 scenario: build `A #1` carries parameters
`20.04` / `2`, build `B #2` has no parameters action. -/
def fetchC1 (name : String) (_num : String) : FetchedBuild :=
  if name = "A" then payloadFull "20.04" "2" else payloadNoParams

/-! ### Report generation (lines 263-318) -/

/-- One report row: the seven columns of the date query plus, in order,
one entry per history date (the Python code stores these as additional
keys of the same dict; the keys are dates, disjoint from the seven column
names). -/
structure ReportRow where
  name : String
  number : String
  os : String
  vm : String
  result : String
  url : String
  date : String
  history : List (String × String)
deriving DecidableEq

/-- Ordering used by `ORDER BY name, os, vm` at line 283: lexicographic on
the three text columns (SQLite's default BINARY collation on UTF-8 text is
the codepoint-lexicographic order, which is Lean's `String` order). -/
def keyLe (a b : BuildRecord) : Prop :=
  a.name < b.name ∨ (a.name = b.name ∧ (a.os < b.os ∨ (a.os = b.os ∧ a.vm ≤ b.vm)))

instance : DecidableRel keyLe := fun a b => by unfold keyLe; infer_instance

instance : IsTotal BuildRecord keyLe := by
  constructor
  intro a b
  unfold keyLe
  rcases lt_trichotomy a.name b.name with h | h | h
  · exact Or.inl (Or.inl h)
  · rcases lt_trichotomy a.os b.os with h2 | h2 | h2
    · exact Or.inl (Or.inr ⟨h, Or.inl h2⟩)
    · rcases le_total a.vm b.vm with h3 | h3
      · exact Or.inl (Or.inr ⟨h, Or.inr ⟨h2, h3⟩⟩)
      · exact Or.inr (Or.inr ⟨h.symm, Or.inr ⟨h2.symm, h3⟩⟩)
    · exact Or.inr (Or.inr ⟨h.symm, Or.inl h2⟩)
  · exact Or.inr (Or.inl h)

instance : IsTrans BuildRecord keyLe := by
  constructor
  intro a b c hab hbc
  unfold keyLe at hab hbc ⊢
  rcases hab with h1 | ⟨e1, h1⟩
  · rcases hbc with h2 | ⟨e2, h2⟩
    · exact Or.inl (h1.trans h2)
    · exact Or.inl (e2 ▸ h1)
  · rcases hbc with h2 | ⟨e2, h2⟩
    · exact Or.inl (e1 ▸ h2)
    · refine Or.inr ⟨e1.trans e2, ?_⟩
      rcases h1 with h1 | ⟨f1, h1⟩
      · rcases h2 with h2 | ⟨f2, h2⟩
        · exact Or.inl (h1.trans h2)
        · exact Or.inl (f2 ▸ h1)
      · rcases h2 with h2 | ⟨f2, h2⟩
        · exact Or.inl (f1 ▸ h2)
        · exact Or.inr ⟨f1.trans f2, h1.trans h2⟩

/-- Lines 280-295: `SELECT ... FROM nightly WHERE date = "{date}" ORDER BY
name, os, vm`. -/
def queryByDate (db : List BuildRecord) (date : String) : List BuildRecord :=
  List.insertionSort keyLe (db.filter (fun r => r.date == date))

/-- Lines 301-310: the history lookup `SELECT result FROM nightly WHERE
name = ... AND os = ... AND vm = ... AND date = ...` followed by
`fetchone()` — the first matching row in table order. -/
def queryHistory (db : List BuildRecord) (name os vm day : String) : Option String :=
  (db.find? (fun r => r.name == name && r.os == os && r.vm == vm && r.date == day)).map
    (fun r => r.result)

/-- Lines 311-316: the value attached under a history date's key. -/
def histEntry (db : List BuildRecord) (name os vm day : String) : String :=
  match queryHistory db name os vm day with
  | some v => v
  | none => "N/A"

/-- Lines 263-318: `generate_report`. -/
def generate_report (date : String) (db : List BuildRecord) (history : List String) :
    List ReportRow :=
  (queryByDate db date).map (fun r =>
    { name := r.name
      number := r.number
      os := r.os
      vm := r.vm
      result := r.result
      url := r.url
      date := r.date
      history := history.map (fun day => (day, histEntry db r.name r.os r.vm day)) })

/-! ### Calendar dates (lines 409-413: `datetime` arithmetic in `main`) -/

/-- A calendar date. -/
structure Date where
  year : Nat
  month : Nat
  day : Nat
deriving DecidableEq

/-- Gregorian leap-year rule. -/
def isLeapYear (y : Nat) : Bool :=
  (y % 4 == 0 && y % 100 != 0) || y % 400 == 0

/-- Number of days in a month. -/
def daysInMonth (y m : Nat) : Nat :=
  if m = 2 then (if isLeapYear y then 29 else 28)
  else if m = 4 || m = 6 || m = 9 || m = 11 then 30
  else 31

/-- One day earlier (`timedelta(days=1)` subtraction on a valid date). -/
def prevDate : Date → Date
  | ⟨y, m, d⟩ =>
    if d > 1 then ⟨y, m, d - 1⟩
    else if m > 1 then ⟨y, m - 1, daysInMonth y (m - 1)⟩
    else ⟨y - 1, 12, 31⟩

/-- `date - timedelta(days=k)`. -/
def subDays (dt : Date) : Nat → Date
  | 0 => dt
  | k + 1 => subDays (prevDate dt) k

/-- Zero-padding to two digits, as in `strftime('%m')` / `%d`. -/
def pad2 (n : Nat) : String :=
  if n < 10 then "0" ++ toString n else toString n

/-- Zero-padding to four digits, as in `strftime('%Y')` for common years. -/
def pad4 (n : Nat) : String :=
  if n < 10 then "000" ++ toString n
  else if n < 100 then "00" ++ toString n
  else if n < 1000 then "0" ++ toString n
  else toString n

/-- `strftime('%Y-%m-%d')`. -/
def formatDate (dt : Date) : String :=
  pad4 dt.year ++ "-" ++ pad2 dt.month ++ "-" ++ pad2 dt.day

/-- Lines 409-413: the history list built in `main` — the 6 calendar dates
immediately preceding the target date, most recent first
(`for day in range(1, 7)`). -/
def history_dates (dt : Date) : List String :=
  (List.range 6).map (fun k => formatDate (subDays dt (k + 1)))

/-! ### `main` (lines 387-438) -/

/-- Observable outcome of one `main` run against a given store state. -/
structure MainOutcome where
  persisted : List BuildRecord
  report : List ReportRow
  emailDelivered : Bool
  raised : Bool
deriving DecidableEq

/-- Lines 387-438: one `main` run, with argument parsing and the Jenkins
session abstracted to the target date `dt`, the concatenated parent log
`log` and the metadata function `fetch`.  `emailOk = false` models
`send_email` raising at line 431.  Sequencing from the source: collect
(line 407), generate the report (line 415), `commit` and `close` (lines
418-419), and only then `send_email` (line 431).  If collect raises, the
uncommitted cursor writes are discarded with the connection, so the
persisted store is the pre-run store; once `commit` has run, a `send_email`
failure can no longer change the persisted store. -/
def mainRun (baseUrl : String) (fetch : String → String → FetchedBuild)
    (dt : Date) (log : String) (db0 : List BuildRecord) (emailOk : Bool) : MainOutcome :=
  let dateStr := formatDate dt
  let c := collect_downstream_builds baseUrl fetch dateStr log db0
  if c.ok then
    let rep := generate_report dateStr c.db (history_dates dt)
    { persisted := c.db
      report := rep
      emailDelivered := emailOk
      raised := !emailOk }
  else
    { persisted := db0
      report := []
      emailDelivered := false
      raised := true }

/-! ### Sequences of runs (for the store-lifetime uniqueness invariant) -/

/-- Inputs of one aggregation run. -/
structure RunInput where
  baseUrl : String
  fetch : String → String → FetchedBuild
  date : String
  log : String

/-- Store state persisted after one run: the cursor's writes survive only
when the run reaches the `commit` at line 418, i.e. when
`collect_downstream_builds` returns normally. -/
def persistedAfter (db : List BuildRecord) (run : RunInput) : List BuildRecord :=
  let r := collect_downstream_builds run.baseUrl run.fetch run.date run.log db
  if r.ok then r.db else db

/-- Store state after a sequence of single-writer runs. -/
def runSeq (runs : List RunInput) (db : List BuildRecord) : List BuildRecord :=
  runs.foldl persistedAfter db

/-- Two records with distinct `(family, number)` identity. -/
def distinctKey (a b : BuildRecord) : Prop :=
  ¬ (a.name = b.name ∧ a.number = b.number)

instance : DecidableRel distinctKey := fun a b => by unfold distinctKey; infer_instance

/-! ### The interpolated SQL text and the store's lexing of it (C10) -/

/-- Line 211-214: the literal text of the dedup `SELECT` built by f-string
interpolation. -/
def selectSQLChars (name number : String) : List Char :=
  ("SELECT name, number, os, vm, result, url, date" ++
   " FROM nightly" ++
   " WHERE name = \"").data ++ name.data ++ "\" AND number = ".data ++
    number.data ++ ";".data

/-- Lines 257-258: `'", "'.join(build_values)`. -/
def joinSQLValues : List String → List Char
  | [] => []
  | [v] => v.data
  | v :: vs => v.data ++ "\", \"".data ++ joinSQLValues vs

/-- Line 258: the literal text of the `INSERT` statement. -/
def insertSQLChars (vals : List String) : List Char :=
  "INSERT INTO NIGHTLY VALUES (\"".data ++ joinSQLValues vals ++ "\");".data

/-- Lexing of a comma-separated sequence of double-quoted tokens followed
by `);`, as SQLite reads the `VALUES` list of the generated `INSERT`
(SQLite accepts double-quoted string literals; a quote inside a value ends
the literal early and derails the statement).  The builder never emits
escaped quotes, so none are handled.  Fuel bounds the recursion; the text
length is always sufficient. -/
def parseQuotedSeq : Nat → List Char → Option (List String)
  | 0, _ => none
  | fuel + 1, cs =>
    match cs with
    | [] => none
    | c :: cs1 =>
      if c = '"' then
        let tok := cs1.takeWhile (fun x => x != '"')
        match cs1.drop tok.length with
        | c2 :: c3 :: c4 :: cs2 =>
          if c2 = '"' && c3 = ',' && c4 = ' ' then
            (parseQuotedSeq fuel cs2).map (fun toks => String.mk tok :: toks)
          else if c2 = '"' && c3 = ')' && c4 = ';' && cs2.isEmpty then
            some [String.mk tok]
          else none
        | _ => none
      else none

/-- The store's reading of a generated `INSERT` statement: the list of
inserted values, or `none` when the statement is malformed. -/
def parseInsertSQL (cs : List Char) : Option (List String) :=
  match stripMarker "INSERT INTO NIGHTLY VALUES (".data cs with
  | none => none
  | some rest => parseQuotedSeq (rest.length + 1) rest

/-- The store's reading of a generated dedup `SELECT`: the name and number
being looked up, or `none` when the statement is malformed (a quote inside
the name ends the string literal early; a non-numeric interpolated number
is not a literal). -/
def parseSelectSQL (cs : List Char) : Option (String × String) :=
  match stripMarker ("SELECT name, number, os, vm, result, url, date" ++
      " FROM nightly" ++ " WHERE name = \"").data cs with
  | none => none
  | some cs1 =>
    let nameTok := cs1.takeWhile (fun c => c != '"')
    match cs1.drop nameTok.length with
    | [] => none
    | c2 :: cs2 =>
      if c2 = '"' then
        match stripMarker " AND number = ".data cs2 with
        | none => none
        | some cs3 =>
          let numTok := cs3.takeWhile isAsciiDigit
          if numTok.isEmpty then none
          else
            match cs3.drop numTok.length with
            | [c4] => if c4 = ';' then some (String.mk nameTok, String.mk numTok) else none
            | _ => none
      else none

/-- The seven column values of a record, in the order built at lines
243-254. -/
def recordFields (r : BuildRecord) : List String :=
  [r.name, r.number, r.os, r.vm, r.result, r.url, r.date]

/-- A row from seven parsed column values. -/
def recordOfFields : List String → Option BuildRecord
  | [n, m, o, v, res, u, d] => some ⟨n, m, o, v, res, u, d⟩
  | _ => none

/-- Executing a generated `INSERT` against the store: lex the statement,
then append the row; `none` models `sqlite3` raising on malformed SQL. -/
def execInsert (db : List BuildRecord) (sql : List Char) : Option (List BuildRecord) :=
  match parseInsertSQL sql with
  | none => none
  | some vals => (recordOfFields vals).map (fun r => db ++ [r])

/-- Executing a generated dedup `SELECT` against the store: lex the
statement, then run the exists check. -/
def execSelectExists (db : List BuildRecord) (sql : List Char) : Option Bool :=
  (parseSelectSQL sql).map (fun p => storeExists db p.1 p.2)

/-- All seven fields free of the double-quote character. -/
def quoteFreeRecord (r : BuildRecord) : Bool :=
  (recordFields r).all (fun s => s.data.all (fun c => c != '"'))

/-- Family well-formedness as the scanner's `(\S+)` group guarantees it:
non-empty and free of whitespace characters. -/
def wfFam (f : String) : Bool := !f.data.isEmpty && f.data.all (fun c => !isPySpace c)

/-- Number well-formedness as the scanner's `(\d+)` group guarantees it:
a non-empty digit string. -/
def wfNum (n : String) : Bool := !n.data.isEmpty && n.data.all isAsciiDigit

/-- Pairwise well-formedness of scanned pairs. -/
def wfPairs (ps : List (String × String)) : Bool :=
  ps.all (fun p => wfFam p.1 && wfNum p.2)

/-- A log made of one `Starting building <family> #<number>` line per
pair, at character level. -/
def canonicalChars : List (String × String) → List Char
  | [] => []
  | (f, n) :: ps =>
    startMarker ++ (' ' :: (f.data ++ (' ' :: ('#' :: (n.data ++ ('\n' :: canonicalChars ps))))))

/-- The same log as a string. -/
def canonicalLog (ps : List (String × String)) : String :=
  String.mk (canonicalChars ps)

/-! ### Concrete inputs used by closed theorems -/

/-- Sample text of the scanner-correctness property. -/
def sampleText : String := "Starting building foo #12\nStarting building bar #3\n"

/-- Metadata source reporting full parameters for every build. -/
def fetchFull (_name _num : String) : FetchedBuild := payloadFull "20.04" "2"

/-- One concrete record. -/
def recW : BuildRecord :=
  { name := "Test-A", number := "5", os := "Ubuntu 20.04", vm := "ACC-2",
    result := "SUCCESS", url := "u", date := "2024-01-10" }

/-- One-record store state. -/
def dbW : List BuildRecord := [recW]

/-- Target date used in closed instantiations. -/
def dateW : Date := ⟨2024, 1, 10⟩

/-- The report row `generate_report` produces from `dbW` for `dateW`. -/
def rowW : ReportRow :=
  { name := "Test-A", number := "5", os := "Ubuntu 20.04", vm := "ACC-2",
    result := "SUCCESS", url := "u", date := "2024-01-10",
    history := [("2024-01-09", "N/A"), ("2024-01-08", "N/A"), ("2024-01-07", "N/A"),
                ("2024-01-06", "N/A"), ("2024-01-05", "N/A"), ("2024-01-04", "N/A")] }

/-- One concrete aggregation run. -/
def runW : RunInput :=
  { baseUrl := "https://j", fetch := fetchFull, date := "2024-01-10",
    log := "Starting building Test-A #5\n" }

/-- A record whose family name contains a double quote, as a scanned
`\S+` token can. -/
def badRecord : BuildRecord :=
  { name := "a\"b", number := "3", os := "Ubuntu N/A", vm := "ACC-N/A",
    result := "SUCCESS", url := "u", date := "2024-01-10" }

/-! ## Lemmas -/

/-! ### List helpers -/

theorem takeWhileAppend (p : Char → Bool) (xs : List Char) (y : Char) (ys : List Char)
    (hx : ∀ c ∈ xs, p c = true) (hy : p y = false) :
    (xs ++ y :: ys).takeWhile p = xs := by
  induction xs with
  | nil => simp [List.takeWhile_cons, hy]
  | cons a as ih =>
    have ha := hx a (by simp)
    simp [List.takeWhile_cons, ha, ih (fun c hc => hx c (by simp [hc]))]

theorem dropFullLength (xs ys : List Char) : (xs ++ ys).drop xs.length = ys := by
  induction xs with
  | nil => rfl
  | cons a as ih =>
    simp only [List.cons_append, List.length_cons, List.drop_succ_cons]
    exact ih

/-! ### Character class facts -/

theorem digit_not_space {c : Char} (h : isAsciiDigit c = true) : isPySpace c = false := by
  by_contra hc
  rw [Bool.not_eq_false] at hc
  simp only [isPySpace, Bool.or_eq_true, beq_iff_eq] at hc
  rcases hc with ((((rfl | rfl) | rfl) | rfl) | rfl) | rfl <;>
    exact absurd h (by decide)

theorem not_space_ne {c : Char} (h : isPySpace c = false) : c ≠ ' ' := by
  intro hc
  subst hc
  exact absurd h (by decide)

theorem not_space_ne_newline {c : Char} (h : isPySpace c = false) : (c != '\n') = true := by
  rcases eq_or_ne c '\n' with rfl | hc
  · exact absurd h (by decide)
  · simpa using hc

theorem digit_ne_newline {c : Char} (h : isAsciiDigit c = true) : (c != '\n') = true :=
  not_space_ne_newline (digit_not_space h)

/-! ### Scanner lemmas -/

theorem matchGroups_not_space {c : Char} (cs : List Char) (h : c ≠ ' ') :
    matchGroups (c :: cs) = none := by
  simp [matchGroups, h]

theorem stripMarker_append (m t : List Char) : stripMarker m (m ++ t) = some t := by
  induction m with
  | nil => rfl
  | cons a as ih => simp [stripMarker, ih]

theorem matchGroups_canonical (f n rest : List Char)
    (hf : f ≠ []) (hf2 : ∀ c ∈ f, isPySpace c = false)
    (hn : n ≠ []) (hn2 : ∀ c ∈ n, isAsciiDigit c = true) :
    matchGroups (' ' :: (f ++ (' ' :: ('#' :: (n ++ ('\n' :: rest)))))) =
      some (String.mk f, String.mk n, '\n' :: rest) := by
  have hfam : (f ++ (' ' :: ('#' :: (n ++ ('\n' :: rest))))).takeWhile
      (fun x => !isPySpace x) = f :=
    takeWhileAppend _ f ' ' _ (fun c hc => by simp [hf2 c hc]) (by decide)
  have hnum : (n ++ ('\n' :: rest)).takeWhile isAsciiDigit = n :=
    takeWhileAppend _ n '\n' _ (fun c hc => hn2 c hc) (by decide)
  have hfe : f.isEmpty = false := by
    cases f with
    | nil => exact absurd rfl hf
    | cons a as => rfl
  have hne : n.isEmpty = false := by
    cases n with
    | nil => exact absurd rfl hn
    | cons a as => rfl
  simp only [matchGroups, if_pos rfl, hfam, hfe, Bool.false_eq_true, if_false]
  rw [dropFullLength]
  simp only [hnum, hne, Bool.false_eq_true, if_false]
  rw [dropFullLength]
  simp

theorem dotStarSearch_cons (c : Char) (line rest : List Char) :
    dotStarSearch (c :: line) rest =
      match dotStarSearch line rest with
      | some r => some r
      | none => matchGroups (c :: (line ++ rest)) := rfl

theorem dotStar_digits (n rest : List Char) (hn2 : ∀ c ∈ n, isAsciiDigit c = true) :
    dotStarSearch n ('\n' :: rest) = none := by
  induction n with
  | nil => exact matchGroups_not_space _ (by decide)
  | cons d ds ih =>
    have hd : d ≠ ' ' := not_space_ne (digit_not_space (hn2 d (by simp)))
    rw [dotStarSearch_cons, ih (fun c hc => hn2 c (by simp [hc]))]
    exact matchGroups_not_space _ hd

theorem dotStar_hash_digits (n rest : List Char) (hn2 : ∀ c ∈ n, isAsciiDigit c = true) :
    dotStarSearch ('#' :: n) ('\n' :: rest) = none := by
  rw [dotStarSearch_cons, dotStar_digits n rest hn2]
  exact matchGroups_not_space _ (by decide)

theorem dotStar_sp_hash_digits (n rest : List Char) (hn2 : ∀ c ∈ n, isAsciiDigit c = true) :
    dotStarSearch (' ' :: ('#' :: n)) ('\n' :: rest) = none := by
  rw [dotStarSearch_cons, dotStar_hash_digits n rest hn2]
  have htok : (('#' :: n) ++ ('\n' :: rest)).takeWhile (fun x => !isPySpace x) = '#' :: n := by
    refine takeWhileAppend _ ('#' :: n) '\n' rest ?_ (by decide)
    intro c hc
    rcases List.mem_cons.mp hc with rfl | hc
    · decide
    · simp [digit_not_space (hn2 c hc)]
  simp only [matchGroups, if_pos rfl, htok]
  have hne : ('#' :: n).isEmpty = false := rfl
  simp only [hne, Bool.false_eq_true, if_false]
  rw [dropFullLength]
  cases rest <;> simp

theorem dotStar_fam (f n rest : List Char)
    (hf2 : ∀ c ∈ f, isPySpace c = false)
    (hn2 : ∀ c ∈ n, isAsciiDigit c = true) :
    dotStarSearch (f ++ (' ' :: ('#' :: n))) ('\n' :: rest) = none := by
  induction f with
  | nil => exact dotStar_sp_hash_digits n rest hn2
  | cons a as ih =>
    have ha : a ≠ ' ' := not_space_ne (hf2 a (by simp))
    rw [List.cons_append, dotStarSearch_cons, ih (fun c hc => hf2 c (by simp [hc]))]
    exact matchGroups_not_space _ ha

theorem dotStar_full (f n rest : List Char)
    (hf : f ≠ []) (hf2 : ∀ c ∈ f, isPySpace c = false)
    (hn : n ≠ []) (hn2 : ∀ c ∈ n, isAsciiDigit c = true) :
    dotStarSearch (' ' :: (f ++ (' ' :: ('#' :: n)))) ('\n' :: rest) =
      some (String.mk f, String.mk n, '\n' :: rest) := by
  rw [dotStarSearch_cons, dotStar_fam f n rest hf2 hn2]
  have halign : (f ++ (' ' :: ('#' :: n))) ++ ('\n' :: rest) =
      f ++ (' ' :: ('#' :: (n ++ ('\n' :: rest)))) := by simp
  rw [halign]
  exact matchGroups_canonical f n rest hf hf2 hn hn2

theorem tryMatchAt_canonical (f n rest : List Char)
    (hf : f ≠ []) (hf2 : ∀ c ∈ f, isPySpace c = false)
    (hn : n ≠ []) (hn2 : ∀ c ∈ n, isAsciiDigit c = true) :
    tryMatchAt (startMarker ++ (' ' :: (f ++ (' ' :: ('#' :: (n ++ ('\n' :: rest))))))) =
      some (String.mk f, String.mk n, '\n' :: rest) := by
  have hsplit : ' ' :: (f ++ (' ' :: ('#' :: (n ++ ('\n' :: rest))))) =
      (' ' :: (f ++ (' ' :: ('#' :: n)))) ++ ('\n' :: rest) := by simp
  have hline : (' ' :: (f ++ (' ' :: ('#' :: (n ++ ('\n' :: rest)))))).takeWhile
      (fun c => c != '\n') = ' ' :: (f ++ (' ' :: ('#' :: n))) := by
    rw [hsplit]
    refine takeWhileAppend (fun c => c != '\n') _ '\n' rest ?_ (by decide)
    intro c hc
    simp only [List.mem_cons, List.mem_append] at hc
    rcases hc with rfl | (hc | hc)
    · decide
    · exact not_space_ne_newline (hf2 c hc)
    · rcases hc with rfl | hc
      · decide
      · rcases hc with rfl | hc
        · decide
        · exact digit_ne_newline (hn2 c hc)
  have hdrop : (' ' :: (f ++ (' ' :: ('#' :: (n ++ ('\n' :: rest)))))).drop
      (' ' :: (f ++ (' ' :: ('#' :: n)))).length = '\n' :: rest := by
    rw [hsplit]
    exact dropFullLength _ _
  have hstrip := stripMarker_append startMarker
    (' ' :: (f ++ (' ' :: ('#' :: (n ++ ('\n' :: rest))))))
  simp only [tryMatchAt, hstrip, hline, hdrop]
  exact dotStar_full f n rest hf hf2 hn hn2

theorem tryMatchAt_newline (cs : List Char) : tryMatchAt ('\n' :: cs) = none := by
  have h1 : stripMarker startMarker ('\n' :: cs) =
      if 'S' = '\n' then stripMarker "tarting building".data cs else none := rfl
  have h2 : stripMarker startMarker ('\n' :: cs) = none := by
    rw [h1, if_neg (by decide)]
  simp [tryMatchAt, h2]

theorem scanAux_canonical :
    ∀ (ps : List (String × String)) (fuel : Nat), wfPairs ps = true →
      (canonicalChars ps).length < fuel →
      scanAux fuel (canonicalChars ps) = ps := by
  intro ps
  induction ps with
  | nil =>
    intro fuel _ hfuel
    obtain ⟨k, rfl⟩ : ∃ k, fuel = k + 1 := ⟨fuel - 1, by omega⟩
    rfl
  | cons hd rest ih =>
    obtain ⟨f, n⟩ := hd
    intro fuel hwf hfuel
    simp only [wfPairs, List.all_cons, Bool.and_eq_true] at hwf
    obtain ⟨⟨hwff, hwfn⟩, hwfrest⟩ := hwf
    simp only [wfFam, Bool.and_eq_true, Bool.not_eq_true', List.all_eq_true] at hwff
    obtain ⟨hfe, hfall⟩ := hwff
    simp only [wfNum, Bool.and_eq_true, Bool.not_eq_true', List.all_eq_true] at hwfn
    obtain ⟨hne, hnall⟩ := hwfn
    have hf : f.data ≠ [] := by
      cases hh : f.data with
      | nil => rw [hh] at hfe; exact absurd hfe (by decide)
      | cons a as => simp
    have hn : n.data ≠ [] := by
      cases hh : n.data with
      | nil => rw [hh] at hne; exact absurd hne (by decide)
      | cons a as => simp
    have hfall2 : ∀ c ∈ f.data, isPySpace c = false := fun c hc => hfall c hc
    have hnall2 : ∀ c ∈ n.data, isAsciiDigit c = true := fun c hc => hnall c hc
    have hsm : startMarker.length = 17 := rfl
    have hcc : canonicalChars ((f, n) :: rest) =
        startMarker ++ (' ' :: (f.data ++ (' ' :: ('#' ::
          (n.data ++ ('\n' :: canonicalChars rest)))))) := rfl
    have hlen : (canonicalChars ((f, n) :: rest)).length =
        (canonicalChars rest).length + f.data.length + n.data.length + 21 := by
      rw [hcc]
      simp only [List.length_append, List.length_cons, hsm]
      omega
    obtain ⟨k2, rfl⟩ : ∃ k2, fuel = k2 + 2 := ⟨fuel - 2, by omega⟩
    rw [hcc]
    simp only [scanAux,
      tryMatchAt_canonical f.data n.data (canonicalChars rest) hf hfall2 hn hnall2,
      tryMatchAt_newline]
    have hmkf : String.mk f.data = f := rfl
    have hmkn : String.mk n.data = n := rfl
    rw [hmkf, hmkn]
    have hbound : (canonicalChars rest).length < k2 := by
      rw [hlen] at hfuel
      have h1 : 1 ≤ f.data.length := by
        cases hh : f.data with
        | nil => exact absurd hh hf
        | cons a as => simp
      omega
    rw [ih k2 hwfrest hbound]

/-! ### C5: scanner correctness -/

/-- C5: on the sample text the scanner yields exactly `("foo","12")` then
`("bar","3")`; in general, for any list of well-formed pairs, a log with
one build-start line per pair scans back to exactly that list — every
match in document order, duplicates as often as they occur. -/
theorem c5_scanner_matches :
    scanLog sampleText = [("foo", "12"), ("bar", "3")]
    ∧ ∀ ps : List (String × String), wfPairs ps = true → scanLog (canonicalLog ps) = ps := by
  constructor
  · decide
  · intro ps hps
    show scanAux ((canonicalLog ps).data.length + 1) (canonicalLog ps).data = ps
    have hdata : (canonicalLog ps).data = canonicalChars ps := rfl
    rw [hdata]
    exact scanAux_canonical ps _ hps (by omega)

theorem c5_scanner_matches_witness :
    wfPairs [("foo", "12"), ("foo", "12"), ("bar", "3")] = true ∧
    scanLog (canonicalLog [("foo", "12"), ("foo", "12"), ("bar", "3")]) =
      [("foo", "12"), ("foo", "12"), ("bar", "3")] :=
  ⟨by decide, c5_scanner_matches.2 _ (by decide)⟩

/-! ### C1: parameter fallback (code bug) -/

/-- C1: the claim states that a payload without a parameters action
resolves both fields to the sentinel (`"Ubuntu N/A"` / `"ACC-N/A"`)
without raising and without carrying over values from a previously
processed build.  The code does neither: processing `B #2` (no parameters
action) after `A #1` stores `A`'s values `"Ubuntu 20.04"` / `"ACC-2"` for
`B`, and processing `B #2` first raises (`UnboundLocalError`), because the
`if json_parameters:` block at lines 224-239 has no else branch resetting
the two locals. -/
theorem c1_param_fallback_divergence :
    ((collectLoop "https://j" fetchC1 [] "2024-01-10"
        [("A", "1"), ("B", "2")] [] none none).db.map (fun r => (r.name, r.os, r.vm)) =
      [("A", "Ubuntu 20.04", "ACC-2"), ("B", "Ubuntu 20.04", "ACC-2")])
    ∧ (collectLoop "https://j" fetchC1 [] "2024-01-10"
        [("B", "2")] [] none none = ⟨[], false⟩) := by
  decide

/-! ### C4: zero matches is benign -/

/-- C4: for every log text in which the scanner finds zero matches,
`collect_downstream_builds` discovers zero identifiers, inserts nothing
and returns normally — the `raise` guard at lines 200-201 tests the
truthiness of the `finditer` iterator object, which is always truthy, so
"no matches" is never fatal. -/
theorem c4_zero_matches_benign (baseUrl : String) (fetch : String → String → FetchedBuild)
    (date log : String) (db : List BuildRecord) (h : scanLog log = []) :
    collect_downstream_builds baseUrl fetch date log db = ⟨db, true⟩ := by
  simp only [collect_downstream_builds, finditerTruthy, if_true, h]
  rfl

theorem c4_zero_matches_benign_witness :
    scanLog "no builds today" = [] ∧
    collect_downstream_builds "https://j" fetchFull "2024-01-10" "no builds today" dbW =
      ⟨dbW, true⟩ :=
  ⟨by decide, c4_zero_matches_benign _ _ _ _ _ (by decide)⟩

/-! ### Collect-loop lemmas -/

theorem collectLoop_nil (b : String) (f : String → String → FetchedBuild)
    (ig : List String) (d : String) (db : List BuildRecord) (o v : Option String) :
    collectLoop b f ig d [] db o v = ⟨db, true⟩ := rfl

theorem collectLoop_cons (b : String) (f : String → String → FetchedBuild)
    (ig : List String) (d name num : String) (rest : List (String × String))
    (db : List BuildRecord) (o v : Option String) :
    collectLoop b f ig d ((name, num) :: rest) db o v =
      if ig.contains name then collectLoop b f ig d rest db o v
      else if storeExists db name num then collectLoop b f ig d rest db o v
      else
        match updateParamVars (f name num) o v with
        | none => ⟨db, false⟩
        | some (osV1, vmV1) =>
          match osV1, vmV1, (f name num).result with
          | some osStr, some vmStr, some res =>
            collectLoop b f ig d rest
              (db ++ [{ name := name
                        number := num
                        os := "Ubuntu " ++ osStr
                        vm := "ACC-" ++ vmStr
                        result := res
                        url := get_build_url_blueocean b "Mystikos%2FStandalone-Pipelines%2F"
                          name num
                        date := d }]) osV1 vmV1
          | _, _, _ => ⟨db, false⟩ := rfl

theorem storeExists_append {db : List BuildRecord} (ext : List BuildRecord) {n m : String}
    (h : storeExists db n m = true) : storeExists (db ++ ext) n m = true := by
  simp only [storeExists, List.any_append, Bool.or_eq_true]
  exact Or.inl (by exact h)

theorem collectLoop_db_extends (b : String) (f : String → String → FetchedBuild)
    (ig : List String) (d : String) :
    ∀ (pairs : List (String × String)) (db : List BuildRecord) (o v : Option String),
    ∃ ext, (collectLoop b f ig d pairs db o v).db = db ++ ext := by
  intro pairs
  induction pairs with
  | nil =>
    intro db o v
    exact ⟨[], by rw [collectLoop_nil]; simp⟩
  | cons hd rest ih =>
    obtain ⟨name, num⟩ := hd
    intro db o v
    rw [collectLoop_cons]
    by_cases hig : ig.contains name = true
    · rw [if_pos hig]; exact ih db o v
    · rw [if_neg hig]
      by_cases hex : storeExists db name num = true
      · rw [if_pos hex]; exact ih db o v
      · rw [if_neg hex]
        cases hup : updateParamVars (f name num) o v with
        | none => exact ⟨[], by simp⟩
        | some p =>
          obtain ⟨o1, v1⟩ := p
          cases o1 with
          | none =>
            cases v1 <;> cases (f name num).result <;> exact ⟨[], by simp⟩
          | some osStr =>
            cases v1 with
            | none => cases (f name num).result <;> exact ⟨[], by simp⟩
            | some vmStr =>
              cases hres : (f name num).result with
              | none => exact ⟨[], by simp⟩
              | some res =>
                obtain ⟨ext, hext⟩ := ih
                  (db ++ [{ name := name
                            number := num
                            os := "Ubuntu " ++ osStr
                            vm := "ACC-" ++ vmStr
                            result := res
                            url := get_build_url_blueocean b
                              "Mystikos%2FStandalone-Pipelines%2F" name num
                            date := d }]) (some osStr) (some vmStr)
                refine ⟨{ name := name
                          number := num
                          os := "Ubuntu " ++ osStr
                          vm := "ACC-" ++ vmStr
                          result := res
                          url := get_build_url_blueocean b
                            "Mystikos%2FStandalone-Pipelines%2F" name num
                          date := d } :: ext, ?_⟩
                rw [hext, List.append_assoc]
                rfl

theorem collectLoop_covers (b : String) (f : String → String → FetchedBuild)
    (ig : List String) (d : String) :
    ∀ (pairs : List (String × String)) (db : List BuildRecord) (o v : Option String),
    (collectLoop b f ig d pairs db o v).ok = true →
    ∀ nm ∈ pairs, ig.contains nm.1 = false →
    storeExists (collectLoop b f ig d pairs db o v).db nm.1 nm.2 = true := by
  intro pairs
  induction pairs with
  | nil =>
    intro db o v _ nm hnm
    exact absurd hnm (List.not_mem_nil nm)
  | cons hd rest ih =>
    obtain ⟨name, num⟩ := hd
    intro db o v hok nm hnm hni
    rw [collectLoop_cons] at hok ⊢
    by_cases hig : ig.contains name = true
    · rw [if_pos hig] at hok ⊢
      rcases List.mem_cons.mp hnm with rfl | hmem
      · rw [hig] at hni
        exact absurd hni (by decide)
      · exact ih db o v hok nm hmem hni
    · rw [if_neg hig] at hok ⊢
      by_cases hex : storeExists db name num = true
      · rw [if_pos hex] at hok ⊢
        rcases List.mem_cons.mp hnm with rfl | hmem
        · obtain ⟨ext, hext⟩ := collectLoop_db_extends b f ig d rest db o v
          rw [hext]
          exact storeExists_append ext hex
        · exact ih db o v hok nm hmem hni
      · rw [if_neg hex] at hok ⊢
        cases hup : updateParamVars (f name num) o v with
        | none =>
          rw [hup] at hok
          simp at hok
        | some p =>
          obtain ⟨o1, v1⟩ := p
          rw [hup] at hok
          cases o1 with
          | none =>
            simp at hok
          | some osStr =>
            cases v1 with
            | none => simp at hok
            | some vmStr =>
              cases hres : (f name num).result with
              | none =>
                rw [hres] at hok
                simp at hok
              | some res =>
                rw [hres] at hok
                rcases List.mem_cons.mp hnm with rfl | hmem
                · obtain ⟨ext, hext⟩ := collectLoop_db_extends b f ig d rest
                    (db ++ [{ name := name
                              number := num
                              os := "Ubuntu " ++ osStr
                              vm := "ACC-" ++ vmStr
                              result := res
                              url := get_build_url_blueocean b
                                "Mystikos%2FStandalone-Pipelines%2F" name num
                              date := d }]) (some osStr) (some vmStr)
                  rw [hext]
                  apply storeExists_append
                  simp [storeExists]
                · exact ih _ (some osStr) (some vmStr) hok nm hmem hni

theorem collectLoop_noop (b : String) (f : String → String → FetchedBuild)
    (ig : List String) (d : String) :
    ∀ (pairs : List (String × String)) (db : List BuildRecord) (o v : Option String),
    (∀ nm ∈ pairs, ig.contains nm.1 = true ∨ storeExists db nm.1 nm.2 = true) →
    collectLoop b f ig d pairs db o v = ⟨db, true⟩ := by
  intro pairs
  induction pairs with
  | nil => intro db o v _; exact collectLoop_nil b f ig d db o v
  | cons hd rest ih =>
    obtain ⟨name, num⟩ := hd
    intro db o v h
    rw [collectLoop_cons]
    have hrest : ∀ nm ∈ rest, ig.contains nm.1 = true ∨ storeExists db nm.1 nm.2 = true :=
      fun nm hm => h nm (List.mem_cons_of_mem _ hm)
    rcases h (name, num) (List.mem_cons_self _ _) with hig | hex
    · rw [if_pos hig]
      exact ih db o v hrest
    · by_cases hig : ig.contains name = true
      · rw [if_pos hig]
        exact ih db o v hrest
      · rw [if_neg hig, if_pos hex]
        exact ih db o v hrest

/-! ### C2: rerunning for the same date is idempotent -/

/-- C2: if a first aggregation run for a date completes against store
`db0`, rerunning collect and report generation for the same date, with the
CI source returning the same log and metadata, inserts zero records (the
store is returned unchanged, with no failure) and produces an identical
report. -/
theorem c2_rerun_idempotent (baseUrl : String) (fetch : String → String → FetchedBuild)
    (date log : String) (hist : List String) (db0 : List BuildRecord)
    (h : (collect_downstream_builds baseUrl fetch date log db0).ok = true) :
    collect_downstream_builds baseUrl fetch date log
        (collect_downstream_builds baseUrl fetch date log db0).db =
      ⟨(collect_downstream_builds baseUrl fetch date log db0).db, true⟩
    ∧ generate_report date (collect_downstream_builds baseUrl fetch date log
        (collect_downstream_builds baseUrl fetch date log db0).db).db hist =
      generate_report date (collect_downstream_builds baseUrl fetch date log db0).db hist := by
  have hu : ∀ db : List BuildRecord, collect_downstream_builds baseUrl fetch date log db =
      collectLoop baseUrl fetch standalone_ignore_list date (scanLog log) db none none :=
    fun db => rfl
  rw [hu db0] at h
  have hcov := collectLoop_covers baseUrl fetch standalone_ignore_list date
    (scanLog log) db0 none none h
  have hnoop : collectLoop baseUrl fetch standalone_ignore_list date (scanLog log)
      (collectLoop baseUrl fetch standalone_ignore_list date (scanLog log) db0 none none).db
      none none =
      ⟨(collectLoop baseUrl fetch standalone_ignore_list date (scanLog log)
          db0 none none).db, true⟩ := by
    apply collectLoop_noop
    intro nm hnm
    by_cases hig : standalone_ignore_list.contains nm.1 = true
    · exact Or.inl hig
    · exact Or.inr (hcov nm hnm (by simpa using hig))
  constructor
  · rw [hu db0, hu]
    exact hnoop
  · rw [hu db0, hu, hnoop]

theorem c2_rerun_idempotent_witness :
    (collect_downstream_builds "https://j" fetchFull "2024-01-10"
        "Starting building Test-A #5\n" []).ok = true ∧
    (collect_downstream_builds "https://j" fetchFull "2024-01-10"
        "Starting building Test-A #5\n"
        (collect_downstream_builds "https://j" fetchFull "2024-01-10"
          "Starting building Test-A #5\n" []).db =
      ⟨(collect_downstream_builds "https://j" fetchFull "2024-01-10"
          "Starting building Test-A #5\n" []).db, true⟩
    ∧ generate_report "2024-01-10" (collect_downstream_builds "https://j" fetchFull "2024-01-10"
        "Starting building Test-A #5\n"
        (collect_downstream_builds "https://j" fetchFull "2024-01-10"
          "Starting building Test-A #5\n" []).db).db ["2024-01-09"] =
      generate_report "2024-01-10" (collect_downstream_builds "https://j" fetchFull "2024-01-10"
          "Starting building Test-A #5\n" []).db ["2024-01-09"]) :=
  ⟨by decide, c2_rerun_idempotent "https://j" fetchFull "2024-01-10"
    "Starting building Test-A #5\n" ["2024-01-09"] [] (by decide)⟩

/-! ### C8: the exclusion filter -/

/-- C8: processing a pair whose family is in the exclusion set is a pure
skip, performed before the dedup query and insert (the resulting state is
the same whatever the store holds); consequently no record with an
excluded family is ever added to the store; and on the sample text with
family `"foo"` excluded, exactly `("bar","3")` is stored. -/
theorem c8_exclusion_filter :
    (∀ (b : String) (f : String → String → FetchedBuild) (ig : List String)
        (d name num : String) (rest : List (String × String)) (db : List BuildRecord)
        (o v : Option String), ig.contains name = true →
        collectLoop b f ig d ((name, num) :: rest) db o v = collectLoop b f ig d rest db o v)
    ∧ (∀ (b : String) (f : String → String → FetchedBuild) (ig : List String)
        (d : String) (pairs : List (String × String)) (db : List BuildRecord)
        (o v : Option String) (r : BuildRecord),
        r ∈ (collectLoop b f ig d pairs db o v).db →
        r ∈ db ∨ ig.contains r.name = false)
    ∧ ((collectLoop "https://j" fetchFull ["foo"] "2024-01-10" (scanLog sampleText)
          [] none none).db.map (fun r => (r.name, r.number)) = [("bar", "3")]) := by
  refine ⟨?_, ?_, by decide⟩
  · intro b f ig d name num rest db o v hig
    rw [collectLoop_cons, if_pos hig]
  · intro b f ig d pairs
    induction pairs with
    | nil =>
      intro db o v r hr
      rw [collectLoop_nil] at hr
      exact Or.inl hr
    | cons hd rest ih =>
      obtain ⟨name, num⟩ := hd
      intro db o v r hr
      rw [collectLoop_cons] at hr
      by_cases hig : ig.contains name = true
      · rw [if_pos hig] at hr
        exact ih db o v r hr
      · rw [if_neg hig] at hr
        by_cases hex : storeExists db name num = true
        · rw [if_pos hex] at hr
          exact ih db o v r hr
        · rw [if_neg hex] at hr
          cases hup : updateParamVars (f name num) o v with
          | none =>
            rw [hup] at hr
            exact Or.inl hr
          | some p =>
            obtain ⟨o1, v1⟩ := p
            rw [hup] at hr
            cases o1 with
            | none =>
              exact Or.inl hr
            | some osStr =>
              cases v1 with
              | none => exact Or.inl hr
              | some vmStr =>
                cases hres : (f name num).result with
                | none =>
                  rw [hres] at hr
                  exact Or.inl hr
                | some res =>
                  rw [hres] at hr
                  rcases ih _ (some osStr) (some vmStr) r hr with hmem | hni
                  · rcases List.mem_append.mp hmem with h1 | h1
                    · exact Or.inl h1
                    · have hr2 := List.mem_singleton.mp h1
                      subst hr2
                      exact Or.inr (by simpa using hig)
                  · exact Or.inr hni

theorem c8_exclusion_filter_witness :
    (["foo"].contains "foo" = true
      ∧ collectLoop "https://j" fetchFull ["foo"] "2024-01-10" [("foo", "1")] dbW none none =
          collectLoop "https://j" fetchFull ["foo"] "2024-01-10" [] dbW none none)
    ∧ (recW ∈ dbW ∨ (["foo"] : List String).contains recW.name = false) :=
  ⟨⟨by decide, c8_exclusion_filter.1 "https://j" fetchFull ["foo"] "2024-01-10" "foo" "1" []
      dbW none none (by decide)⟩,
    c8_exclusion_filter.2.1 "https://j" fetchFull ["foo"] "2024-01-10" [] dbW none none
      recW (by decide)⟩

/-! ### C3: uniqueness of (family, number) across runs -/

theorem storeExists_false_all {db : List BuildRecord} {n m : String}
    (h : ¬ storeExists db n m = true) :
    ∀ r ∈ db, ¬ (r.name = n ∧ r.number = m) := by
  intro r hr hc
  apply h
  simp only [storeExists, List.any_eq_true]
  exact ⟨r, hr, by simp [hc.1, hc.2]⟩

theorem pairwise_append_singleton {db : List BuildRecord} {rec : BuildRecord}
    (hdb : List.Pairwise distinctKey db)
    (hnew : ∀ r ∈ db, distinctKey r rec) :
    List.Pairwise distinctKey (db ++ [rec]) := by
  rw [List.pairwise_append]
  refine ⟨hdb, List.pairwise_singleton _ _, ?_⟩
  intro a ha r hb
  rcases List.mem_singleton.mp hb with rfl
  exact hnew a ha

theorem collectLoop_pairwise (b : String) (f : String → String → FetchedBuild)
    (ig : List String) (d : String) :
    ∀ (pairs : List (String × String)) (db : List BuildRecord) (o v : Option String),
    List.Pairwise distinctKey db →
    List.Pairwise distinctKey (collectLoop b f ig d pairs db o v).db := by
  intro pairs
  induction pairs with
  | nil =>
    intro db o v h
    rw [collectLoop_nil]
    exact h
  | cons hd rest ih =>
    obtain ⟨name, num⟩ := hd
    intro db o v h
    rw [collectLoop_cons]
    by_cases hig : ig.contains name = true
    · rw [if_pos hig]
      exact ih db o v h
    · rw [if_neg hig]
      by_cases hex : storeExists db name num = true
      · rw [if_pos hex]
        exact ih db o v h
      · rw [if_neg hex]
        cases hup : updateParamVars (f name num) o v with
        | none => exact h
        | some p =>
          obtain ⟨o1, v1⟩ := p
          cases o1 with
          | none => cases v1 <;> cases (f name num).result <;> exact h
          | some osStr =>
            cases v1 with
            | none => cases (f name num).result <;> exact h
            | some vmStr =>
              cases hres : (f name num).result with
              | none => exact h
              | some res =>
                apply ih
                apply pairwise_append_singleton h
                intro r hr
                have hfree := storeExists_false_all hex r hr
                simpa [distinctKey] using hfree

/-- C3: starting from a store whose records have pairwise-distinct
`(family, number)` keys, any sequence of single-writer aggregation runs —
for any dates, overlapping or not — preserves that invariant: the
check-then-insert at lines 210-218 and 256-261 skips every pair already
present. -/
theorem c3_unique_key_invariant (runs : List RunInput) (db0 : List BuildRecord)
    (h : List.Pairwise distinctKey db0) :
    List.Pairwise distinctKey (runSeq runs db0) := by
  induction runs generalizing db0 with
  | nil => exact h
  | cons r rs ih =>
    have hstep : runSeq (r :: rs) db0 = runSeq rs (persistedAfter db0 r) := rfl
    rw [hstep]
    apply ih
    unfold persistedAfter
    by_cases hok : (collect_downstream_builds r.baseUrl r.fetch r.date r.log db0).ok = true
    · rw [if_pos hok]
      exact collectLoop_pairwise r.baseUrl r.fetch standalone_ignore_list r.date
        (scanLog r.log) db0 none none h
    · rw [if_neg hok]
      exact h

theorem c3_unique_key_invariant_witness :
    List.Pairwise distinctKey dbW ∧ List.Pairwise distinctKey (runSeq [runW] dbW) :=
  ⟨by decide, c3_unique_key_invariant [runW] dbW (by decide)⟩

/-! ### C9: a mail failure cannot touch the committed store -/

/-- C9: every record inserted by a completed aggregation step is committed
(line 418) before `send_email` is invoked (line 431), so a run in which
`send_email` raises persists exactly the aggregation-step store — the
failed delivery changes nothing compared to a successful one. -/
theorem c9_email_failure_preserves_store (baseUrl : String)
    (fetch : String → String → FetchedBuild) (dt : Date) (log : String)
    (db0 : List BuildRecord)
    (h : (collect_downstream_builds baseUrl fetch (formatDate dt) log db0).ok = true) :
    (mainRun baseUrl fetch dt log db0 false).persisted =
      (collect_downstream_builds baseUrl fetch (formatDate dt) log db0).db
    ∧ (mainRun baseUrl fetch dt log db0 false).raised = true
    ∧ (mainRun baseUrl fetch dt log db0 false).persisted =
      (mainRun baseUrl fetch dt log db0 true).persisted := by
  unfold mainRun
  simp [h]

theorem c9_email_failure_preserves_store_witness :
    (collect_downstream_builds "https://j" fetchFull (formatDate dateW)
        "Starting building Test-A #5\n" []).ok = true ∧
    ((mainRun "https://j" fetchFull dateW "Starting building Test-A #5\n" [] false).persisted =
      (collect_downstream_builds "https://j" fetchFull (formatDate dateW)
        "Starting building Test-A #5\n" []).db
    ∧ (mainRun "https://j" fetchFull dateW "Starting building Test-A #5\n" [] false).raised = true
    ∧ (mainRun "https://j" fetchFull dateW "Starting building Test-A #5\n" [] false).persisted =
      (mainRun "https://j" fetchFull dateW "Starting building Test-A #5\n" [] true).persisted) :=
  ⟨by decide, c9_email_failure_preserves_store "https://j" fetchFull dateW
    "Starting building Test-A #5\n" [] (by decide)⟩

/-! ### C7: date query ordering -/

/-- C7: for every store state and date, the base rows produced by the date
query are sorted ascending by `(family, os, vm)` — and they are exactly
the records carrying that date, regardless of insertion order. -/
theorem c7_query_by_date_sorted (db : List BuildRecord) (date : String) :
    List.Sorted keyLe (queryByDate db date)
    ∧ (queryByDate db date).Perm (db.filter (fun r => r.date == date)) :=
  ⟨List.sorted_insertionSort keyLe _, List.perm_insertionSort keyLe _⟩

/-! ### C6: history completeness -/

/-- C6: every base row returned by `generate_report`, when invoked with
the 6-day history list built in `main`, carries exactly 6 history entries
keyed, in order, by the 6 calendar dates immediately preceding the target
date (plain day subtraction), each value being either the result stored
for the same `(family, os, vm)` on that date or the sentinel `"N/A"`. -/
theorem c6_history_complete (db : List BuildRecord) (dt : Date) (row : ReportRow)
    (h : row ∈ generate_report (formatDate dt) db (history_dates dt)) :
    row.history.length = 6
    ∧ row.history.map Prod.fst = history_dates dt
    ∧ ∀ p ∈ row.history, p.2 = "N/A" ∨
        ∃ r ∈ db, r.name = row.name ∧ r.os = row.os ∧ r.vm = row.vm ∧ r.date = p.1 ∧
          p.2 = r.result := by
  obtain ⟨r0, hr0, rfl⟩ := List.mem_map.mp h
  refine ⟨?_, ?_, ?_⟩
  · simp [history_dates]
  · simp [history_dates]
  · intro p hp
    obtain ⟨day, hday, rfl⟩ := List.mem_map.mp hp
    cases hq : queryHistory db r0.name r0.os r0.vm day with
    | none =>
      left
      simp [histEntry, hq]
    | some val =>
      right
      obtain ⟨rr, hfind, hres⟩ := Option.map_eq_some'.mp hq
      have hmem := List.mem_of_find?_eq_some hfind
      have hpred := List.find?_some hfind
      simp only [Bool.and_eq_true, beq_iff_eq] at hpred
      obtain ⟨⟨⟨hn, ho⟩, hv⟩, hd⟩ := hpred
      refine ⟨rr, hmem, hn, ho, hv, hd, ?_⟩
      simp [histEntry, hq, hres]

theorem c6_history_complete_witness :
    rowW ∈ generate_report (formatDate dateW) dbW (history_dates dateW) ∧
    (rowW.history.length = 6
    ∧ rowW.history.map Prod.fst = history_dates dateW
    ∧ ∀ p ∈ rowW.history, p.2 = "N/A" ∨
        ∃ r ∈ dbW, r.name = rowW.name ∧ r.os = rowW.os ∧ r.vm = rowW.vm ∧ r.date = p.1 ∧
          p.2 = r.result) :=
  ⟨by decide, c6_history_complete dbW dateW rowW (by decide)⟩

/-! ### C10: the interpolated SQL is safe only for quote-free values -/

theorem joinSQLValues_length (vals : List String) (h : vals ≠ []) :
    vals.length ≤ (joinSQLValues vals).length + 1 := by
  induction vals with
  | nil => exact absurd rfl h
  | cons v vs ih =>
    cases vs with
    | nil => simp [joinSQLValues]
    | cons v2 vs2 =>
      have hj : joinSQLValues (v :: v2 :: vs2) =
          v.data ++ ("\", \"").data ++ joinSQLValues (v2 :: vs2) := rfl
      have := ih (by simp)
      rw [hj]
      simp only [List.length_append, List.length_cons]
      simp only [List.length_cons] at this
      omega

theorem parseQuotedSeq_canonical :
    ∀ (vals : List String) (fuel : Nat), vals ≠ [] →
      (∀ s ∈ vals, ∀ c ∈ s.data, (c != '"') = true) →
      vals.length ≤ fuel →
      parseQuotedSeq fuel ('"' :: (joinSQLValues vals ++ ['"', ')', ';'])) = some vals := by
  intro vals
  induction vals with
  | nil => intro fuel h; exact absurd rfl h
  | cons v vs ih =>
    intro fuel _ hq hfuel
    obtain ⟨k, rfl⟩ : ∃ k, fuel = k + 1 := ⟨fuel - 1, by simp at hfuel; omega⟩
    cases vs with
    | nil =>
      have hjoin : joinSQLValues [v] = v.data := rfl
      have htok : (v.data ++ ['"', ')', ';']).takeWhile (fun x => x != '"') = v.data := by
        have h0 : ((v.data ++ ('"' :: [')', ';'])).takeWhile (fun x => x != '"')) = v.data :=
          takeWhileAppend _ v.data '"' _ (fun c hc => hq v (by simp) c hc) (by decide)
        simpa using h0
      rw [hjoin]
      simp only [parseQuotedSeq, if_pos rfl, htok]
      rw [dropFullLength]
      simp

    | cons v2 vs2 =>
      have hsep : ("\", \"").data = ['"', ',', ' ', '"'] := rfl
      have hj : joinSQLValues (v :: v2 :: vs2) ++ ['"', ')', ';'] =
          v.data ++ ('"' :: (',' :: (' ' ::
            ('"' :: (joinSQLValues (v2 :: vs2) ++ ['"', ')', ';']))))) := by
        have h0 : joinSQLValues (v :: v2 :: vs2) =
            v.data ++ ("\", \"").data ++ joinSQLValues (v2 :: vs2) := rfl
        rw [h0, hsep]
        simp
      have htok : (v.data ++ ('"' :: (',' :: (' ' ::
          ('"' :: (joinSQLValues (v2 :: vs2) ++ ['"', ')', ';'])))))).takeWhile
          (fun x => x != '"') = v.data :=
        takeWhileAppend _ v.data '"' _ (fun c hc => hq v (by simp) c hc) (by decide)
      rw [hj]
      simp only [parseQuotedSeq, if_pos rfl, htok]
      rw [dropFullLength]
      have hrec := ih k (by simp) (fun s hs => hq s (by simp [hs]))
        (by simp at hfuel ⊢; omega)
      simp only [if_pos (by decide : ('"' : Char) = '"' ∧ True)]
      simp [hrec]

theorem parseInsertSQL_canonical (vals : List String) (hne : vals ≠ [])
    (hq : ∀ s ∈ vals, ∀ c ∈ s.data, (c != '"') = true) :
    parseInsertSQL (insertSQLChars vals) = some vals := by
  have hA : ("INSERT INTO NIGHTLY VALUES (\"").data =
      ("INSERT INTO NIGHTLY VALUES (").data ++ ['"'] := rfl
  have hB : ("\");").data = ['"', ')', ';'] := rfl
  have hshape : insertSQLChars vals = ("INSERT INTO NIGHTLY VALUES (").data ++
      ('"' :: (joinSQLValues vals ++ ['"', ')', ';'])) := by
    have h0 : insertSQLChars vals =
        ("INSERT INTO NIGHTLY VALUES (\"").data ++ joinSQLValues vals ++ ("\");").data := rfl
    rw [h0, hA, hB]
    simp
  rw [hshape]
  have hstrip := stripMarker_append ("INSERT INTO NIGHTLY VALUES (").data
    ('"' :: (joinSQLValues vals ++ ['"', ')', ';']))
  simp only [parseInsertSQL, hstrip]
  apply parseQuotedSeq_canonical vals _ hne hq
  have := joinSQLValues_length vals hne
  simp only [List.length_cons, List.length_append]
  omega

theorem parseSelectSQL_canonical (name number : String)
    (hqn : ∀ c ∈ name.data, (c != '"') = true)
    (hnum : wfNum number = true) :
    parseSelectSQL (selectSQLChars name number) = some (name, number) := by
  simp only [wfNum, Bool.and_eq_true, Bool.not_eq_true', List.all_eq_true] at hnum
  obtain ⟨hne, hdig⟩ := hnum
  have hA : ("\" AND number = ").data = '"' :: (" AND number = ").data := rfl
  have hB : (";").data = [';'] := rfl
  have hshape : selectSQLChars name number =
      ("SELECT name, number, os, vm, result, url, date" ++
        " FROM nightly" ++ " WHERE name = \"").data ++
      (name.data ++ ('"' :: ((" AND number = ").data ++ (number.data ++ [';'])))) := by
    have h0 : selectSQLChars name number =
        ("SELECT name, number, os, vm, result, url, date" ++
          " FROM nightly" ++ " WHERE name = \"").data ++ name.data ++
          ("\" AND number = ").data ++ number.data ++ (";").data := rfl
    rw [h0, hA, hB]
    simp
  rw [hshape]
  have hstrip := stripMarker_append ("SELECT name, number, os, vm, result, url, date" ++
      " FROM nightly" ++ " WHERE name = \"").data
    (name.data ++ ('"' :: ((" AND number = ").data ++ (number.data ++ [';']))))
  have hname : (name.data ++ ('"' :: ((" AND number = ").data ++
      (number.data ++ [';'])))).takeWhile (fun c => c != '"') = name.data :=
    takeWhileAppend _ name.data '"' _ (fun c hc => hqn c hc) (by decide)
  simp only [parseSelectSQL, hstrip, hname]
  rw [dropFullLength]
  have hstrip2 := stripMarker_append (" AND number = ").data (number.data ++ [';'])
  simp only [if_pos rfl, hstrip2]
  have hnumtok : (number.data ++ [';']).takeWhile isAsciiDigit = number.data := by
    have h0 : ((number.data ++ (';' :: [])).takeWhile isAsciiDigit) = number.data :=
      takeWhileAppend _ number.data ';' [] (fun c hc => hdig c hc) (by decide)
    simpa using h0
  simp only [hnumtok]
  have hempty : number.data.isEmpty = false := by
    cases hh : number.data with
    | nil => rw [hh] at hne; exact absurd hne (by decide)
    | cons a as => rfl
  simp only [hempty, Bool.false_eq_true, if_false]
  rw [dropFullLength]
  simp

/-- C10: quoting discipline of the interpolated store queries.  For every
record all of whose column values are quote-free (its number being the
digit string the scanner produces), the generated `INSERT` round-trips and
the subsequent generated dedup `SELECT` finds the row; whereas for a
scanned family name containing a double quote — which `(\S+)` can capture
from untrusted log text — the generated `INSERT` and `SELECT` are
malformed and the store errors. -/
theorem c10_quote_safety :
    (∀ (db : List BuildRecord) (r : BuildRecord),
      quoteFreeRecord r = true → wfNum r.number = true →
      execInsert db (insertSQLChars (recordFields r)) = some (db ++ [r])
        ∧ execSelectExists (db ++ [r]) (selectSQLChars r.name r.number) = some true)
    ∧ execInsert [] (insertSQLChars (recordFields badRecord)) = none
    ∧ execSelectExists [] (selectSQLChars badRecord.name badRecord.number) = none := by
  refine ⟨?_, by decide, by decide⟩
  intro db r hqf hnum
  have hfields : ∀ s ∈ recordFields r, ∀ c ∈ s.data, (c != '"') = true := by
    intro s hs c hc
    simp only [quoteFreeRecord, List.all_eq_true] at hqf
    exact hqf s hs c hc
  have hparse := parseInsertSQL_canonical (recordFields r) (by simp [recordFields]) hfields
  have hrec : recordOfFields (recordFields r) = some r := rfl
  constructor
  · simp [execInsert, hparse, hrec]
  · have hq : ∀ c ∈ r.name.data, (c != '"') = true :=
      hfields r.name (by simp [recordFields])
    have hsel := parseSelectSQL_canonical r.name r.number hq hnum
    simp only [execSelectExists, hsel]
    simp [storeExists]

theorem c10_quote_safety_witness :
    (quoteFreeRecord recW = true ∧ wfNum recW.number = true)
    ∧ (execInsert [] (insertSQLChars (recordFields recW)) = some ([] ++ [recW])
      ∧ execSelectExists ([] ++ [recW]) (selectSQLChars recW.name recW.number) = some true) :=
  ⟨⟨by decide, by decide⟩, c10_quote_safety.1 [] recW (by decide) (by decide)⟩

end NightlyReport
